import Mathlib

/-!
Verification of the ordering and layout core of `image_to_pdf_core.py`
(together with the call pattern of `app.py`).

Modelling conventions of the shallow embedding:
* a Python string (and a `pathlib.Path`, which the core only ever inspects
  through its filename) is a `List Char`;
* Python's stable `sorted(files, key=...)` is `List.insertionSort` with the
  key's total preorder — the unique stable sort for that preorder;
* the real arithmetic of the page-layout computation is carried out in `ℚ`
  (Python floats are treated as exact reals, as the specification does);
* the per-asset `try`/`except` body of `create_pdf_with_images` uses an
  oracle `render : α → Option β`: `some` models a successful decode and draw,
  `none` a caught exception. The reportlab canvas is modelled by its pending
  page buffer: the heading is drawn before decoding, `showPage` completes the
  pending page on success, a caught exception leaves the pending heading in
  the buffer, and `save()` flushes a nonempty pending buffer as a final page.
-/

namespace ImageToPdf

/-- A Python string, modelled as its list of characters. -/
abbrev PyStr := List Char

/-- Embedding of `split_by_semicolon` (image_to_pdf_core.py, lines 17-30):
two list comprehensions keeping, respectively, the filenames that contain a
semicolon and those that do not. -/
def split_by_semicolon (image_files : List PyStr) : List PyStr × List PyStr :=
  (image_files.filter (fun f => f.contains ';'),
   image_files.filter (fun f => !f.contains ';'))

/-- Python substring containment `needle in hay`: `needle` occurs contiguously
in `hay` (an empty needle always matches). -/
def py_in (needle : PyStr) : PyStr → Bool
  | [] => needle.isEmpty
  | c :: rest => needle.isPrefixOf (c :: rest) || py_in needle rest

/-- Match test of `get_priority_index` (line 57):
`priority_item == filename or priority_item in filename`. -/
def item_matches (priority_item filename : PyStr) : Bool :=
  priority_item == filename || py_in priority_item filename

/-- Index of the first matching token: the `for idx, priority_item in
enumerate(priority_list)` loop of `get_priority_index` (lines 55-58), which
returns `idx` at the first hit and falls through otherwise. -/
def first_match (priority_list : List PyStr) (filename : PyStr) : Option Nat :=
  match priority_list with
  | [] => none
  | t :: ts =>
    if item_matches t filename then some 0
    else (first_match ts filename).map (· + 1)

/-- Python `list.index`: position of the first element equal to `x` (the
source only calls it on members of the list, where it cannot raise). -/
def py_index (l : List PyStr) (x : PyStr) : Nat :=
  match l with
  | [] => 0
  | y :: t => if y = x then 0 else py_index t x + 1

/-- Embedding of `get_priority_index` (lines 47-61): the index of the first
matching priority token, or `len(priority_list) + files.index(file_path)`
when no token matches. -/
def get_priority_index (priority_list files : List PyStr) (file_path : PyStr) : Nat :=
  match first_match priority_list file_path with
  | some idx => idx
  | none => priority_list.length + py_index files file_path

/-- Embedding of `sort_by_priority` (lines 33-63): Python's `sorted` is the
stable sort by the key `get_priority_index`, i.e. `List.insertionSort` with
the key's total preorder. -/
def sort_by_priority (files : List PyStr) (priority_list : List PyStr) : List PyStr :=
  files.insertionSort
    (fun a b =>
      get_priority_index priority_list files a ≤ get_priority_index priority_list files b)

/-- Python `str.split(',')`: every comma is a cut point and empty pieces are
kept (`"".split(',') == ['']`). -/
def py_split_comma : PyStr → List PyStr
  | [] => [[]]
  | c :: rest =>
    if c = ',' then [] :: py_split_comma rest
    else
      match py_split_comma rest with
      | [] => [[c]]
      | p :: ps => (c :: p) :: ps

/-- Whitespace characters removed by Python `str.strip()` (ASCII range). -/
def py_isspace (c : Char) : Bool :=
  c = ' ' || c = '\t' || c = '\n' || c = '\r' || c = '\x0b' || c = '\x0c'

/-- Python `str.strip()`: drop leading and trailing whitespace. -/
def py_strip (s : PyStr) : PyStr :=
  ((s.dropWhile py_isspace).reverse.dropWhile py_isspace).reverse

/-- Embedding of `parse_priority_list` (lines 170-183): an empty string
short-circuits to `[]`; otherwise split on commas, strip each item, and keep
the non-empty results (the comprehension guard is the truthiness of
`item.strip()`). -/
def parse_priority_list (priority_str : PyStr) : List PyStr :=
  if priority_str.isEmpty then []
  else ((py_split_comma priority_str).map py_strip).filter (fun item => !item.isEmpty)

/-- Embedding of `available_width = page_width - 100` (line 121). -/
def available_width (page_width : ℚ) : ℚ := page_width - 100

/-- Embedding of `available_height = page_height - 150` (line 122). -/
def available_height (page_height : ℚ) : ℚ := page_height - 150

/-- Embedding of `scale_ratio = min(width_ratio, height_ratio, 1.0)`
(lines 125-127). -/
def scale_ratio (page_width page_height : ℚ) (img_width img_height : ℕ) : ℚ :=
  min (min (available_width page_width / img_width)
           (available_height page_height / img_height)) 1

/-- Embedding of `scaled_width = img_width * scale_ratio` (line 129). -/
def scaled_width (page_width page_height : ℚ) (img_width img_height : ℕ) : ℚ :=
  img_width * scale_ratio page_width page_height img_width img_height

/-- Embedding of `scaled_height = img_height * scale_ratio` (line 130). -/
def scaled_height (page_width page_height : ℚ) (img_width img_height : ℕ) : ℚ :=
  img_height * scale_ratio page_width page_height img_width img_height

/-- Python `int()` on a real value: truncation toward zero (the numerator of
the reduced fraction divided by its denominator, rounding toward zero). -/
def py_int (q : ℚ) : ℤ := q.num.tdiv q.den

/-- Embedding of `target_pixel_width = int(scaled_width * 2)` (line 134). -/
def target_pixel_width (page_width page_height : ℚ) (img_width img_height : ℕ) : ℤ :=
  py_int (scaled_width page_width page_height img_width img_height * 2)

/-- Embedding of `target_pixel_height = int(scaled_height * 2)` (line 135). -/
def target_pixel_height (page_width page_height : ℚ) (img_width img_height : ℕ) : ℤ :=
  py_int (scaled_height page_width page_height img_width img_height * 2)

/-- Embedding of the resize guard
`img_width > target_pixel_width or img_height > target_pixel_height`
(line 137). -/
def do_resize (page_width page_height : ℚ) (img_width img_height : ℕ) : Bool :=
  decide ((img_width : ℤ) > target_pixel_width page_width page_height img_width img_height)
    || decide ((img_height : ℤ) > target_pixel_height page_width page_height img_width img_height)

/-- Embedding of the rendering loop of `create_pdf_with_images`
(lines 83-166). `pending` is the content already drawn on the canvas's
current, not yet emitted page: each iteration first draws the asset's heading
(lines 86-100, before `Image.open` on line 106), so the asset joins the
pending page. On success the image is drawn and `c.showPage()` (line 157)
completes the pending page; a caught exception (line 161) skips the asset but
leaves its heading in the pending buffer. At the end `c.save()` (line 166)
flushes a nonempty pending buffer as one final page (reportlab executes an
automatic ShowPage when current data exists). A page is recorded as the list
of assets whose marks were drawn on it. -/
def render_loop {α β : Type} (render : α → Option β) :
    List α → List α → List (List α)
  | pending, [] => if pending.isEmpty then [] else [pending]
  | pending, a :: rest =>
    match render a with
    | some _ => (pending ++ [a]) :: render_loop render [] rest
    | none => render_loop render (pending ++ [a]) rest

/-- Embedding of `create_pdf_with_images` (lines 66-167). The result is
`none` for the `if not image_files` early return (no document written) and
`some pages` for the finalized PDF produced by the per-asset loop starting
from an empty canvas page. -/
def create_pdf_with_images {α β : Type} (render : α → Option β) (image_files : List α) :
    Option (List (List α)) :=
  if image_files.isEmpty then none
  else some (render_loop render [] image_files)

/-! Helper lemmas about the stable key sort. -/

section KeySort

variable {α : Type} (k : α → ℕ)

/-- An insertion sort by a natural-number key is pairwise nondecreasing in the
key. -/
theorem key_sort_pairwise (l : List α) :
    (l.insertionSort (fun a b => k a ≤ k b)).Pairwise (fun a b => k a ≤ k b) := by
  haveI : IsTotal α (fun a b => k a ≤ k b) := ⟨fun a b => Nat.le_total _ _⟩
  haveI : IsTrans α (fun a b => k a ≤ k b) := ⟨fun a b c hab hbc => Nat.le_trans hab hbc⟩
  exact List.sorted_insertionSort _ l

/-- Stability of the key sort: a filtered subsequence whose members appear in
nondecreasing key order is returned unchanged by the sort. -/
theorem key_sort_filter_eq (p : α → Bool) (l : List α)
    (hp : (l.filter p).Pairwise (fun a b => k a ≤ k b)) :
    (l.insertionSort (fun a b => k a ≤ k b)).filter p = l.filter p := by
  have hsub : List.Sublist (l.filter p) (l.insertionSort (fun a b => k a ≤ k b)) :=
    List.sublist_insertionSort hp (List.filter_sublist l)
  have hself : (l.filter p).filter p = l.filter p :=
    List.filter_eq_self.mpr fun a ha => (List.mem_filter.mp ha).2
  have h1 : List.Sublist (l.filter p) ((l.insertionSort (fun a b => k a ≤ k b)).filter p) := by
    have h2 := hsub.filter p
    rwa [hself] at h2
  have hperm : List.Perm ((l.insertionSort (fun a b => k a ≤ k b)).filter p) (l.filter p) :=
    (List.perm_insertionSort _ l).filter p
  exact (h1.eq_of_length hperm.length_eq.symm).symm

end KeySort

/-! Helper lemmas about `first_match`, `py_index` and `get_priority_index`. -/

/-- A match at position `i` of the priority list forces a first match at some
position `m ≤ i`. -/
theorem first_match_le_of_matches :
    ∀ (priority_list : List PyStr) (filename : PyStr) (i : ℕ) (hi : i < priority_list.length),
      item_matches (priority_list.get ⟨i, hi⟩) filename = true →
      ∃ m, first_match priority_list filename = some m ∧ m ≤ i
  | [], _, i, hi, _ => absurd hi (by simp)
  | t :: ts, fn, i, hi, hm => by
    by_cases h : item_matches t fn = true
    · exact ⟨0, by simp [first_match, h], Nat.zero_le i⟩
    · cases i with
      | zero => exact absurd hm (by simpa using h)
      | succ j =>
        obtain ⟨m, hm1, hm2⟩ :=
          first_match_le_of_matches ts fn j (by simpa using hi) (by simpa using hm)
        exact ⟨m + 1, by simp [first_match, h, hm1], Nat.succ_le_succ hm2⟩

/-- The priority key of a file whose first matching token sits at `m`. -/
theorem get_priority_index_of_some {priority_list files : List PyStr} {fn : PyStr} {m : ℕ}
    (h : first_match priority_list fn = some m) :
    get_priority_index priority_list files fn = m := by
  unfold get_priority_index
  rw [h]

/-- The priority key of a file that matches no token. -/
theorem get_priority_index_of_none {priority_list files : List PyStr} {fn : PyStr}
    (h : first_match priority_list fn = none) :
    get_priority_index priority_list files fn = priority_list.length + py_index files fn := by
  unfold get_priority_index
  rw [h]

/-! Theorems for the frozen claims. -/

/-- Unfolding equation for `sort_by_priority`. -/
theorem sort_by_priority_eq (files priority_list : List PyStr) :
    sort_by_priority files priority_list
      = files.insertionSort
          (fun a b =>
            get_priority_index priority_list files a
              ≤ get_priority_index priority_list files b) := rfl

/-- Minimality of `py_index`: any position holding `x` is at or after the
reported first index. -/
theorem py_index_le_of_get :
    ∀ (l : List PyStr) (x : PyStr) (p : ℕ) (hp : p < l.length),
      l.get ⟨p, hp⟩ = x → py_index l x ≤ p
  | [], _, p, hp, _ => absurd hp (by simp)
  | y :: t, x, p, hp, hget => by
    by_cases h : y = x
    · simp [py_index, h]
    · cases p with
      | zero => exact absurd hget h
      | succ j =>
        have hrec := py_index_le_of_get t x j (by simpa using hp) (by simpa using hget)
        simp only [py_index, if_neg h]
        omega

/-- If a filtered subsequence has no duplicates, its members occur in strictly
increasing order of their first position in the base list. -/
theorem filter_nodup_pairwise_py_index (p : PyStr → Bool) :
    ∀ l : List PyStr, (l.filter p).Nodup →
      (l.filter p).Pairwise (fun x y => py_index l x < py_index l y) := by
  intro l
  induction l with
  | nil => intro _; simp
  | cons a t ih =>
    intro h
    by_cases hpa : p a = true
    · rw [List.filter_cons_of_pos hpa] at h ⊢
      obtain ⟨ha, h2⟩ := List.nodup_cons.mp h
      refine List.Pairwise.cons ?_ ?_
      · intro y hy
        have hya : a ≠ y := fun e => ha (e ▸ hy)
        simp [py_index, hya]
      · refine List.Pairwise.imp_of_mem ?_ (ih h2)
        intro x y hx hy hr
        have hxa : a ≠ x := fun e => ha (e ▸ hx)
        have hya : a ≠ y := fun e => ha (e ▸ hy)
        simp only [py_index, if_neg hxa, if_neg hya]
        omega
    · rw [List.filter_cons_of_neg hpa] at h ⊢
      refine List.Pairwise.imp_of_mem ?_ (ih h)
      intro x y hx hy hr
      have hxa : a ≠ x := fun e => hpa (e ▸ (List.mem_filter.mp hx).2)
      have hya : a ≠ y := fun e => hpa (e ▸ (List.mem_filter.mp hy).2)
      simp only [py_index, if_neg hxa, if_neg hya]
      omega

/-- C1: priority determinism of `sort_by_priority`. If asset `a` matches the
priority token at index `i` (exactly or as a substring) while asset `b` first
matches only at some index `j > i`, or matches no token at all, then every
occurrence of `a` appears strictly before every occurrence of `b` in the
sorted output. -/
theorem priority_determinism (priority_list files : List PyStr) (a b : PyStr) (i : ℕ)
    (hi : i < priority_list.length)
    (ha : a ∈ files) (hb : b ∈ files)
    (hmatch : item_matches (priority_list.get ⟨i, hi⟩) a = true)
    (hbm : (∃ j, first_match priority_list b = some j ∧ i < j)
      ∨ first_match priority_list b = none) :
    ∀ (p q : ℕ) (hp : p < (sort_by_priority files priority_list).length)
      (hq : q < (sort_by_priority files priority_list).length),
      (sort_by_priority files priority_list).get ⟨p, hp⟩ = a →
      (sort_by_priority files priority_list).get ⟨q, hq⟩ = b →
      p < q := by
  rw [sort_by_priority_eq]
  intro p q hp hq hpa hqb
  have hka : get_priority_index priority_list files a ≤ i := by
    obtain ⟨m, hm1, hm2⟩ := first_match_le_of_matches priority_list a i hi hmatch
    rw [get_priority_index_of_some hm1]
    exact hm2
  have hkb : i < get_priority_index priority_list files b := by
    rcases hbm with ⟨j, hj1, hj2⟩ | hnone
    · rw [get_priority_index_of_some hj1]
      exact hj2
    · rw [get_priority_index_of_none hnone]
      exact Nat.lt_of_lt_of_le hi (Nat.le_add_right _ _)
  have hpair := key_sort_pairwise (get_priority_index priority_list files) files
  rcases Nat.lt_trichotomy p q with h | h | h
  · exact h
  · exfalso
    subst h
    have hab : a = b := by rw [← hpa, ← hqb]
    rw [hab] at hka
    omega
  · exfalso
    have hrel := (List.pairwise_iff_get.mp hpair) ⟨q, hq⟩ ⟨p, hp⟩ h
    rw [hpa, hqb] at hrel
    omega

/-- Witness for C1: priority list `["b"]`, input `[b.png, a.png]`, with
`b.png` matching at index 0 and `a.png` matching nothing; the theorem applies
and forces every `b.png` before every `a.png` in the output. -/
theorem priority_determinism_witness :
    0 < (["b".data] : List PyStr).length
    ∧ "b.png".data ∈ (["b.png".data, "a.png".data] : List PyStr)
    ∧ "a.png".data ∈ (["b.png".data, "a.png".data] : List PyStr)
    ∧ first_match ["b".data] "a.png".data = none
    ∧ ∀ (p q : ℕ)
        (hp : p < (sort_by_priority ["b.png".data, "a.png".data] ["b".data]).length)
        (hq : q < (sort_by_priority ["b.png".data, "a.png".data] ["b".data]).length),
        (sort_by_priority ["b.png".data, "a.png".data] ["b".data]).get ⟨p, hp⟩
          = "b.png".data →
        (sort_by_priority ["b.png".data, "a.png".data] ["b".data]).get ⟨q, hq⟩
          = "a.png".data →
        p < q :=
  ⟨by decide, by decide, by decide, by decide,
    priority_determinism ["b".data] ["b.png".data, "a.png".data]
      "b.png".data "a.png".data 0 (by decide) (by decide) (by decide) (by decide)
      (Or.inr (by decide))⟩

/-- Counterexample to C2 as frozen: with an empty priority list and input
`["b", "a", "b"]` (everything unmatched, name `"b"` duplicated), the second
`"b"` inherits the fallback key of the first occurrence
(`list.index` finds the first equal element), so the output is
`["b", "b", "a"]`: restricting the output to the no-match subset gives
`["b", "b", "a"]`, not the input order `["b", "a", "b"]`. -/
theorem sort_stability_counterexample :
    ¬ ((sort_by_priority ["b".data, "a".data, "b".data] []).filter
          (fun f => (first_match [] f).isNone)
        = (["b".data, "a".data, "b".data] : List PyStr).filter
          (fun f => (first_match [] f).isNone)) := by
  decide

/-- C2 (amended): stability of `sort_by_priority`. Restricting the output to
the assets whose first matching priority index is any fixed `i` yields exactly
that subset in input order; restricting to the assets that match no token also
yields that subset in input order, provided the no-match subset contains no
duplicate filename (with duplicates the fallback key collapses onto the first
occurrence, see the counterexample). -/
theorem sort_stability (priority_list files : List PyStr) :
    (∀ i : ℕ,
      (sort_by_priority files priority_list).filter
          (fun f => decide (first_match priority_list f = some i))
        = files.filter (fun f => decide (first_match priority_list f = some i)))
    ∧ ((files.filter (fun f => (first_match priority_list f).isNone)).Nodup →
      (sort_by_priority files priority_list).filter
          (fun f => (first_match priority_list f).isNone)
        = files.filter (fun f => (first_match priority_list f).isNone)) := by
  constructor
  · intro i
    rw [sort_by_priority_eq]
    apply key_sort_filter_eq
    apply List.pairwise_of_forall_mem_list
    intro x hx y hy
    have hxk : get_priority_index priority_list files x = i :=
      get_priority_index_of_some (of_decide_eq_true (List.mem_filter.mp hx).2)
    have hyk : get_priority_index priority_list files y = i :=
      get_priority_index_of_some (of_decide_eq_true (List.mem_filter.mp hy).2)
    omega
  · intro hnd
    rw [sort_by_priority_eq]
    apply key_sort_filter_eq
    refine List.Pairwise.imp_of_mem ?_ (filter_nodup_pairwise_py_index _ files hnd)
    intro x y hx hy hr
    have hxn : first_match priority_list x = none :=
      Option.isNone_iff_eq_none.mp (List.mem_filter.mp hx).2
    have hyn : first_match priority_list y = none :=
      Option.isNone_iff_eq_none.mp (List.mem_filter.mp hy).2
    rw [get_priority_index_of_none hxn, get_priority_index_of_none hyn]
    omega

/-- Witness for C2 (amended): priority list `["a"]`, input `[ba, c, da]`.
Both matched assets (`ba`, `da`, first index 0) and the duplicate-free
no-match subset (`[c]`) come back in input order. -/
theorem sort_stability_witness :
    (sort_by_priority ["ba".data, "c".data, "da".data] ["a".data]).filter
        (fun f => decide (first_match ["a".data] f = some 0))
      = (["ba".data, "c".data, "da".data] : List PyStr).filter
        (fun f => decide (first_match ["a".data] f = some 0))
    ∧ ((["ba".data, "c".data, "da".data] : List PyStr).filter
        (fun f => (first_match ["a".data] f).isNone)).Nodup
    ∧ (sort_by_priority ["ba".data, "c".data, "da".data] ["a".data]).filter
        (fun f => (first_match ["a".data] f).isNone)
      = (["ba".data, "c".data, "da".data] : List PyStr).filter
        (fun f => (first_match ["a".data] f).isNone) :=
  ⟨(sort_stability _ _).1 0, by decide, (sort_stability _ _).2 (by decide)⟩

/-- C10: duplicate filenames. When a filename `x` occurs at two input
positions `p < q` and matches no priority token, the key computed for both
occurrences is the same `len(priority_list) + files.index(x)` where
`files.index` finds the first occurrence (so it is at or before `p`); the
stable sort therefore keeps equal-keyed entries together and the output is a
permutation of the input (every occurrence preserved, count included). -/
theorem duplicate_filenames (priority_list files : List PyStr) (x : PyStr) (p q : ℕ)
    (hp : p < files.length) (hq : q < files.length) (hpq : p < q)
    (hxp : files.get ⟨p, hp⟩ = x) (hxq : files.get ⟨q, hq⟩ = x)
    (hnm : first_match priority_list x = none) :
    get_priority_index priority_list files x = priority_list.length + py_index files x
    ∧ py_index files x ≤ p
    ∧ (sort_by_priority files priority_list).count x = files.count x
    ∧ List.Perm (sort_by_priority files priority_list) files := by
  have hperm : List.Perm (sort_by_priority files priority_list) files := by
    rw [sort_by_priority_eq]
    exact List.perm_insertionSort _ _
  have hcount : (sort_by_priority files priority_list).count x = files.count x :=
    hperm.countP_eq (fun y => y == x)
  exact ⟨get_priority_index_of_none hnm, py_index_le_of_get files x p hp hxp,
    hcount, hperm⟩

/-- Witness for C10: input `[a, b, a]` with priority list `["z"]` matching
nothing; the duplicated name `a` at positions 0 and 2 gets key `1 + 0` and
the output is a permutation preserving its count. -/
theorem duplicate_filenames_witness :
    (["a".data, "b".data, "a".data] : List PyStr).get ⟨0, by decide⟩ = "a".data
    ∧ (["a".data, "b".data, "a".data] : List PyStr).get ⟨2, by decide⟩ = "a".data
    ∧ first_match ["z".data] "a".data = none
    ∧ (get_priority_index ["z".data] ["a".data, "b".data, "a".data] "a".data
        = (["z".data] : List PyStr).length
            + py_index ["a".data, "b".data, "a".data] "a".data
      ∧ py_index ["a".data, "b".data, "a".data] "a".data ≤ 0
      ∧ (sort_by_priority ["a".data, "b".data, "a".data] ["z".data]).count "a".data
          = (["a".data, "b".data, "a".data] : List PyStr).count "a".data
      ∧ List.Perm (sort_by_priority ["a".data, "b".data, "a".data] ["z".data])
          ["a".data, "b".data, "a".data]) :=
  ⟨by decide, by decide, by decide,
    duplicate_filenames ["z".data] ["a".data, "b".data, "a".data] "a".data 0 2
      (by decide) (by decide) (by decide) (by decide) (by decide) (by decide)⟩

/-- C3: partition correctness of `split_by_semicolon`. Both output lists are
order-preserving subsequences of the input; a path is in the first list iff it
is an input member whose name contains a semicolon, in the second iff it is an
input member whose name does not; the lists are disjoint; and their
concatenation is a permutation of the input (multiset union equals the input,
nothing duplicated or dropped). -/
theorem split_partition (image_files : List PyStr) :
    List.Sublist (split_by_semicolon image_files).1 image_files
    ∧ List.Sublist (split_by_semicolon image_files).2 image_files
    ∧ (∀ f, f ∈ (split_by_semicolon image_files).1 ↔
        f ∈ image_files ∧ f.contains ';' = true)
    ∧ (∀ f, f ∈ (split_by_semicolon image_files).2 ↔
        f ∈ image_files ∧ f.contains ';' = false)
    ∧ List.Disjoint (split_by_semicolon image_files).1 (split_by_semicolon image_files).2
    ∧ List.Perm ((split_by_semicolon image_files).1 ++ (split_by_semicolon image_files).2)
        image_files := by
  refine ⟨List.filter_sublist _, List.filter_sublist _, ?_, ?_, ?_, ?_⟩
  · intro f
    simp [split_by_semicolon, List.mem_filter]
  · intro f
    simp [split_by_semicolon, List.mem_filter]
  · intro f h1 h2
    have e1 := (List.mem_filter.mp h1).2
    have e2 := (List.mem_filter.mp h2).2
    simp only [Bool.not_eq_true'] at e2
    rw [e1] at e2
    exact Bool.true_eq_false.mp e2
  · exact List.filter_append_perm _ image_files

/-- Witness for C3: the spec scenario `["x;1.png", "x2.png"]` splits into
`marked = ["x;1.png"]` and `unmarked = ["x2.png"]`, and the partition theorem
applies there. -/
theorem split_partition_witness :
    (split_by_semicolon ["x;1.png".data, "x2.png".data]).1 = ["x;1.png".data]
    ∧ (split_by_semicolon ["x;1.png".data, "x2.png".data]).2 = ["x2.png".data]
    ∧ List.Perm ((split_by_semicolon ["x;1.png".data, "x2.png".data]).1
          ++ (split_by_semicolon ["x;1.png".data, "x2.png".data]).2)
        ["x;1.png".data, "x2.png".data] :=
  ⟨by decide, by decide, (split_partition _).2.2.2.2.2⟩

/-- C7: an empty asset list hits the `if not image_files` early return: no
document is produced and no error is raised (the embedding is a total
function returning the no-document value). -/
theorem empty_input_no_document {α β : Type} (render : α → Option β) :
    create_pdf_with_images render ([] : List α) = none := rfl

/-- Successes and failures of the renderer partition the batch by count. -/
theorem length_filter_isSome_add_isNone {α β : Type} (render : α → Option β) (l : List α) :
    (l.filter (fun a => (render a).isSome)).length
      + (l.filter (fun a => (render a).isNone)).length = l.length := by
  induction l with
  | nil => rfl
  | cons a t ih =>
    cases h : render a with
    | none =>
      simp [List.filter_cons, h]
      omega
    | some b =>
      simp [List.filter_cons, h]
      omega

/-- When the last asset of the batch renders successfully, the loop emits
exactly one page per successful asset, whatever content is already pending:
every stray heading of a failed asset is absorbed by the next completed page
and the final `save()` finds an empty buffer. -/
theorem render_loop_length_success {α β : Type} (render : α → Option β) :
    ∀ (l pending : List α) (z : α),
      l.getLast? = some z → (render z).isSome = true →
      (render_loop render pending l).length
        = (l.filter (fun a => (render a).isSome)).length
  | [], _, z, hz, _ => by simp at hz
  | [a], pending, z, hz, hs => by
    have ha : a = z := by simpa using hz
    subst ha
    obtain ⟨c, hc⟩ := Option.isSome_iff_exists.mp hs
    simp [render_loop, hc]
  | a :: b :: rest, pending, z, hz, hs => by
    have hz' : (b :: rest).getLast? = some z := by
      rw [← List.getLast?_cons_cons]
      exact hz
    cases hra : render a with
    | some c =>
      have ih := render_loop_length_success render (b :: rest) [] z hz' hs
      have hstep : render_loop render pending (a :: b :: rest)
          = (pending ++ [a]) :: render_loop render [] (b :: rest) := by
        simp [render_loop, hra]
      have hfilt : List.filter (fun x => (render x).isSome) (a :: b :: rest)
          = a :: List.filter (fun x => (render x).isSome) (b :: rest) :=
        List.filter_cons_of_pos (by simp [hra])
      rw [hstep, hfilt, List.length_cons, List.length_cons, ih]
    | none =>
      have ih := render_loop_length_success render (b :: rest) (pending ++ [a]) z hz' hs
      have hstep : render_loop render pending (a :: b :: rest)
          = render_loop render (pending ++ [a]) (b :: rest) := by
        simp [render_loop, hra]
      have hfilt : List.filter (fun x => (render x).isSome) (a :: b :: rest)
          = List.filter (fun x => (render x).isSome) (b :: rest) :=
        List.filter_cons_of_neg (by simp [hra])
      rw [hstep, hfilt]
      exact ih

/-- When the last asset of the batch fails to render, its heading stays in
the pending buffer, `save()` flushes it as an extra page, and the loop emits
one page per successful asset plus that one junk page. -/
theorem render_loop_length_failure {α β : Type} (render : α → Option β) :
    ∀ (l pending : List α) (z : α),
      l.getLast? = some z → (render z).isSome = false →
      (render_loop render pending l).length
        = (l.filter (fun a => (render a).isSome)).length + 1
  | [], _, z, hz, _ => by simp at hz
  | [a], pending, z, hz, hs => by
    have ha : a = z := by simpa using hz
    subst ha
    have hn : render a = none := by
      cases hrr : render a with
      | none => rfl
      | some c =>
        rw [hrr] at hs
        simp at hs
    simp [render_loop, hn]
  | a :: b :: rest, pending, z, hz, hs => by
    have hz' : (b :: rest).getLast? = some z := by
      rw [← List.getLast?_cons_cons]
      exact hz
    cases hra : render a with
    | some c =>
      have ih := render_loop_length_failure render (b :: rest) [] z hz' hs
      have hstep : render_loop render pending (a :: b :: rest)
          = (pending ++ [a]) :: render_loop render [] (b :: rest) := by
        simp [render_loop, hra]
      have hfilt : List.filter (fun x => (render x).isSome) (a :: b :: rest)
          = a :: List.filter (fun x => (render x).isSome) (b :: rest) :=
        List.filter_cons_of_pos (by simp [hra])
      rw [hstep, hfilt, List.length_cons, List.length_cons, ih]
    | none =>
      have ih := render_loop_length_failure render (b :: rest) (pending ++ [a]) z hz' hs
      have hstep : render_loop render pending (a :: b :: rest)
          = render_loop render (pending ++ [a]) (b :: rest) := by
        simp [render_loop, hra]
      have hfilt : List.filter (fun x => (render x).isSome) (a :: b :: rest)
          = List.filter (fun x => (render x).isSome) (b :: rest) :=
        List.filter_cons_of_neg (by simp [hra])
      rw [hstep, hfilt]
      exact ih

/-- Counterexample to C6 as frozen: batch `[1, 0]` with a renderer failing
exactly on the last asset `0`. The heading of `0` is drawn before its decode
fails, the caught exception leaves it pending, and `save()` flushes it as a
junk page: the finalized document has 2 pages (`[[1], [0]]`), not the exactly
`N = 1` pages the claim demands. -/
theorem fault_isolation_counterexample :
    (([1, 0] : List ℕ).filter
        (fun a => ((fun n => if n = 0 then (none : Option ℕ) else some n) a).isNone)).length = 1
    ∧ create_pdf_with_images (fun n => if n = 0 then (none : Option ℕ) else some n)
        ([1, 0] : List ℕ) = some [[1], [0]]
    ∧ ¬ (([[1], [0]] : List (List ℕ)).length + 1 = ([1, 0] : List ℕ).length) := by
  decide

/-- C6 (amended): fault isolation. If exactly one asset of the batch fails to
render and the other N succeed, the composer never aborts and always
finalizes a document; the document has exactly N pages whenever the failing
asset is not the last of the batch (its stray heading is overdrawn on the
next page), and N + 1 pages (the extra one holding only the stray heading)
when the failing asset is last. -/
theorem fault_isolation {α β : Type} (render : α → Option β) (image_files : List α)
    (hone : (image_files.filter (fun a => (render a).isNone)).length = 1) :
    ∃ pages, create_pdf_with_images render image_files = some pages
      ∧ (∀ z ∈ image_files.getLast?, (render z).isSome = true →
          pages.length + 1 = image_files.length)
      ∧ (∀ z ∈ image_files.getLast?, (render z).isSome = false →
          pages.length = image_files.length) := by
  have hne : image_files.isEmpty = false := by
    cases image_files with
    | nil => simp at hone
    | cons a t => rfl
  have hsum := length_filter_isSome_add_isNone render image_files
  refine ⟨render_loop render [] image_files, ?_, ?_, ?_⟩
  · simp [create_pdf_with_images, hne]
  · intro z hz hs
    rw [Option.mem_def] at hz
    have hlen := render_loop_length_success render image_files [] z hz hs
    omega
  · intro z hz hs
    rw [Option.mem_def] at hz
    have hlen := render_loop_length_failure render image_files [] z hz hs
    omega

/-- Witness for C6 (amended): batch `[1, 0, 2]` with a renderer failing
exactly on `0`, which is not last; the theorem applies and the document gets
exactly 2 pages. -/
theorem fault_isolation_witness :
    (([1, 0, 2] : List ℕ).filter
        (fun a => ((fun n => if n = 0 then (none : Option ℕ) else some n) a).isNone)).length = 1
    ∧ ∃ pages,
        create_pdf_with_images (fun n => if n = 0 then (none : Option ℕ) else some n)
          ([1, 0, 2] : List ℕ) = some pages
        ∧ (∀ z ∈ ([1, 0, 2] : List ℕ).getLast?,
            ((fun n => if n = 0 then (none : Option ℕ) else some n) z).isSome = true →
            pages.length + 1 = ([1, 0, 2] : List ℕ).length)
        ∧ (∀ z ∈ ([1, 0, 2] : List ℕ).getLast?,
            ((fun n => if n = 0 then (none : Option ℕ) else some n) z).isSome = false →
            pages.length = ([1, 0, 2] : List ℕ).length) :=
  ⟨by decide, fault_isolation _ _ (by decide)⟩

/-- C8: the worked scenario. With priority string `"b,a"` and input order
`[a.png, b.png, c.png]`, the parsed priority list is `["b", "a"]`, the keys
are `key(b.png) = 0`, `key(a.png) = 1` and `key(c.png) = 2 + 2 = 4`, and the
sorted order is `[b.png, a.png, c.png]`. -/
theorem worked_scenario :
    parse_priority_list "b,a".data = ["b".data, "a".data]
    ∧ sort_by_priority ["a.png".data, "b.png".data, "c.png".data]
        (parse_priority_list "b,a".data)
      = ["b.png".data, "a.png".data, "c.png".data]
    ∧ get_priority_index (parse_priority_list "b,a".data)
        ["a.png".data, "b.png".data, "c.png".data] "b.png".data = 0
    ∧ get_priority_index (parse_priority_list "b,a".data)
        ["a.png".data, "b.png".data, "c.png".data] "a.png".data = 1
    ∧ get_priority_index (parse_priority_list "b,a".data)
        ["a.png".data, "b.png".data, "c.png".data] "c.png".data
      = (parse_priority_list "b,a".data).length + 2 := by
  decide

/-- C4: no-upscale. For positive image pixel dimensions and any page size,
the scale ratio `min(availableWidth/imgWidth, availableHeight/imgHeight, 1.0)`
is at most 1, so the drawn rectangle never exceeds the source image's
dimensions. -/
theorem no_upscale (page_width page_height : ℚ) (img_width img_height : ℕ)
    (hw : 0 < img_width) (hh : 0 < img_height) :
    scale_ratio page_width page_height img_width img_height ≤ 1
    ∧ scaled_width page_width page_height img_width img_height ≤ (img_width : ℚ)
    ∧ scaled_height page_width page_height img_width img_height ≤ (img_height : ℚ) := by
  have h1 : scale_ratio page_width page_height img_width img_height ≤ 1 :=
    min_le_right _ _
  refine ⟨h1, ?_, ?_⟩
  · have h2 := mul_le_mul_of_nonneg_left h1 (by positivity : (0:ℚ) ≤ (img_width:ℚ))
    simpa [scaled_width] using h2
  · have h2 := mul_le_mul_of_nonneg_left h1 (by positivity : (0:ℚ) ≤ (img_height:ℚ))
    simpa [scaled_height] using h2

/-- Witness for C4 on the letter page (612 by 792 points) and a 1000 by 400
pixel image. -/
theorem no_upscale_witness :
    0 < (1000 : ℕ) ∧ 0 < (400 : ℕ)
    ∧ (scale_ratio 612 792 1000 400 ≤ 1
      ∧ scaled_width 612 792 1000 400 ≤ ((1000 : ℕ) : ℚ)
      ∧ scaled_height 612 792 1000 400 ≤ ((400 : ℕ) : ℚ)) :=
  ⟨by decide, by decide, no_upscale 612 792 1000 400 (by decide) (by decide)⟩

/-- Truncation toward zero agrees with the floor on nonnegative values. -/
theorem py_int_eq_floor {q : ℚ} (hq : 0 ≤ q) : py_int q = ⌊q⌋ := by
  have hnum : 0 ≤ q.num := Rat.num_nonneg.mpr hq
  rw [Rat.floor_def]
  unfold py_int
  exact Int.tdiv_eq_ediv hnum (by positivity)

/-- C5: conditional resampling never upscales. With the fixed margins of the
page geometry (page at least 100 points wide and 150 points tall) and
positive pixel dimensions, whenever the resize guard of line 137 fires, both
2x-oversampled target dimensions are strictly below the source dimensions and
the target pixel count is strictly below the source pixel count. -/
theorem resample_no_upscale (page_width page_height : ℚ) (img_width img_height : ℕ)
    (hpw : 100 ≤ page_width) (hph : 150 ≤ page_height)
    (hw : 0 < img_width) (hh : 0 < img_height)
    (hguard : do_resize page_width page_height img_width img_height = true) :
    target_pixel_width page_width page_height img_width img_height < (img_width : ℤ)
    ∧ target_pixel_height page_width page_height img_width img_height < (img_height : ℤ)
    ∧ target_pixel_width page_width page_height img_width img_height
        * target_pixel_height page_width page_height img_width img_height
      < (img_width : ℤ) * (img_height : ℤ) := by
  have hw' : (0:ℚ) < (img_width:ℚ) := by exact_mod_cast hw
  have hh' : (0:ℚ) < (img_height:ℚ) := by exact_mod_cast hh
  have hr0 : 0 ≤ scale_ratio page_width page_height img_width img_height := by
    unfold scale_ratio
    refine le_min (le_min ?_ ?_) ?_
    · refine div_nonneg ?_ (le_of_lt hw')
      unfold available_width
      linarith
    · refine div_nonneg ?_ (le_of_lt hh')
      unfold available_height
      linarith
    · norm_num
  have hsw0 : 0 ≤ scaled_width page_width page_height img_width img_height * 2 := by
    unfold scaled_width
    have h2 := mul_nonneg (le_of_lt hw') hr0
    linarith
  have hsh0 : 0 ≤ scaled_height page_width page_height img_width img_height * 2 := by
    unfold scaled_height
    have h2 := mul_nonneg (le_of_lt hh') hr0
    linarith
  have htw : target_pixel_width page_width page_height img_width img_height
      = ⌊scaled_width page_width page_height img_width img_height * 2⌋ := by
    unfold target_pixel_width
    exact py_int_eq_floor hsw0
  have hth : target_pixel_height page_width page_height img_width img_height
      = ⌊scaled_height page_width page_height img_width img_height * 2⌋ := by
    unfold target_pixel_height
    exact py_int_eq_floor hsh0
  have hguard' :
      ⌊scaled_width page_width page_height img_width img_height * 2⌋ < (img_width:ℤ)
      ∨ ⌊scaled_height page_width page_height img_width img_height * 2⌋ < (img_height:ℤ) := by
    simp only [do_resize, Bool.or_eq_true, decide_eq_true_eq, gt_iff_lt, htw, hth] at hguard
    exact hguard
  have hs1 : scale_ratio page_width page_height img_width img_height * 2 < 1 := by
    rcases hguard' with h | h
    · have h2 : scaled_width page_width page_height img_width img_height * 2
          < ((img_width:ℤ) : ℚ) := Int.floor_lt.mp h
      rw [Int.cast_natCast] at h2
      unfold scaled_width at h2
      nlinarith
    · have h2 : scaled_height page_width page_height img_width img_height * 2
          < ((img_height:ℤ) : ℚ) := Int.floor_lt.mp h
      rw [Int.cast_natCast] at h2
      unfold scaled_height at h2
      nlinarith
  have htwlt : target_pixel_width page_width page_height img_width img_height
      < (img_width:ℤ) := by
    rw [htw]
    apply Int.floor_lt.mpr
    rw [Int.cast_natCast]
    unfold scaled_width
    nlinarith
  have hthlt : target_pixel_height page_width page_height img_width img_height
      < (img_height:ℤ) := by
    rw [hth]
    apply Int.floor_lt.mpr
    rw [Int.cast_natCast]
    unfold scaled_height
    nlinarith
  have htw0 : 0 ≤ target_pixel_width page_width page_height img_width img_height := by
    rw [htw]
    exact Int.floor_nonneg.mpr hsw0
  refine ⟨htwlt, hthlt, ?_⟩
  have hih0 : (0:ℤ) < (img_height:ℤ) := by exact_mod_cast hh
  have h1 : target_pixel_width page_width page_height img_width img_height
        * target_pixel_height page_width page_height img_width img_height
      ≤ target_pixel_width page_width page_height img_width img_height * (img_height:ℤ) :=
    mul_le_mul_of_nonneg_left (le_of_lt hthlt) htw0
  have h2 : target_pixel_width page_width page_height img_width img_height * (img_height:ℤ)
      < (img_width:ℤ) * (img_height:ℤ) :=
    mul_lt_mul_of_pos_right htwlt hih0
  linarith

/-- Witness for C5: letter page, 3000 by 3000 pixel image. The scale ratio is
512/3000, the guard fires (the oversampled target is 1024 by 1024), and the
target is strictly below the source in both dimensions and in pixel count. -/
theorem resample_no_upscale_witness :
    (100 : ℚ) ≤ 612 ∧ (150 : ℚ) ≤ 792 ∧ 0 < (3000 : ℕ) ∧ 0 < (3000 : ℕ)
    ∧ do_resize 612 792 3000 3000 = true
    ∧ (target_pixel_width 612 792 3000 3000 < ((3000 : ℕ) : ℤ)
      ∧ target_pixel_height 612 792 3000 3000 < ((3000 : ℕ) : ℤ)
      ∧ target_pixel_width 612 792 3000 3000 * target_pixel_height 612 792 3000 3000
        < ((3000 : ℕ) : ℤ) * ((3000 : ℕ) : ℤ)) := by
  have hsw : scaled_width 612 792 3000 3000 * 2 = 1024 := by
    unfold scaled_width scale_ratio available_width available_height
    rw [min_def, min_def]
    norm_num
  have htw : target_pixel_width 612 792 3000 3000 = 1024 := by
    unfold target_pixel_width
    rw [hsw]
    unfold py_int
    norm_num
  have htg : do_resize 612 792 3000 3000 = true := by
    unfold do_resize
    rw [htw, Bool.or_eq_true]
    left
    decide
  exact ⟨by norm_num, by norm_num, by decide, by decide, htg,
    resample_no_upscale 612 792 3000 3000 (by norm_num) (by norm_num)
      (by decide) (by decide) htg⟩

/-- Every character of every piece produced by the comma split occurs in the
original string. -/
theorem py_split_comma_chars :
    ∀ (s : PyStr) (p : PyStr), p ∈ py_split_comma s → ∀ c ∈ p, c ∈ s
  | [], p, hp, c, hc => by
    simp only [py_split_comma, List.mem_singleton] at hp
    subst hp
    simp at hc
  | a :: t, p, hp, c, hc => by
    by_cases ha : a = ','
    · rw [show py_split_comma (a :: t) = [] :: py_split_comma t by
        simp [py_split_comma, ha]] at hp
      rcases List.mem_cons.mp hp with rfl | hp'
      · simp at hc
      · exact List.mem_cons_of_mem a (py_split_comma_chars t p hp' c hc)
    · cases hrec : py_split_comma t with
      | nil =>
        rw [show py_split_comma (a :: t) = [[a]] by
          simp [py_split_comma, ha, hrec]] at hp
        rw [List.mem_singleton] at hp
        subst hp
        rw [List.mem_singleton] at hc
        rw [hc]
        exact List.mem_cons_self a t
      | cons q qs =>
        rw [show py_split_comma (a :: t) = (a :: q) :: qs by
          simp [py_split_comma, ha, hrec]] at hp
        rcases List.mem_cons.mp hp with rfl | hp'
        · rcases List.mem_cons.mp hc with rfl | hc'
          · exact List.mem_cons_self c t
          · refine List.mem_cons_of_mem a ?_
            refine py_split_comma_chars t q ?_ c hc'
            rw [hrec]
            exact List.mem_cons_self q qs
        · refine List.mem_cons_of_mem a ?_
          refine py_split_comma_chars t p ?_ c hc
          rw [hrec]
          exact List.mem_cons_of_mem q hp'

/-- Stripping a string made of whitespace only yields the empty string. -/
theorem py_strip_nil_of_space {p : PyStr} (h : ∀ c ∈ p, py_isspace c = true) :
    py_strip p = [] := by
  unfold py_strip
  have h1 : p.dropWhile py_isspace = [] := List.dropWhile_eq_nil_iff.mpr h
  rw [h1]
  rfl

/-- Restatement of the parser contract in the specification's words (section
4.1): the comma-separated entries, trimmed of surrounding whitespace, with
empty results dropped, in their original order with duplicates kept. -/
def parse_priority_list_spec (priority_str : PyStr) : List PyStr :=
  ((py_split_comma priority_str).map py_strip).filter (fun item => !item.isEmpty)

/-- C9: parser contract. `parse_priority_list` agrees with the trimmed,
non-empty, order-preserving comma split on every input, and a whitespace-only
(or empty) input yields the empty list. -/
theorem parse_priority_list_contract (s : PyStr) :
    parse_priority_list s = parse_priority_list_spec s
    ∧ (s.all py_isspace = true → parse_priority_list s = []) := by
  have hagree : parse_priority_list s = parse_priority_list_spec s := by
    cases s with
    | nil => rfl
    | cons a t => rfl
  refine ⟨hagree, ?_⟩
  intro hall
  rw [hagree]
  unfold parse_priority_list_spec
  rw [List.filter_eq_nil_iff]
  intro x hx
  obtain ⟨q, hq, rfl⟩ := List.mem_map.mp hx
  have hsp : ∀ c ∈ q, py_isspace c = true := by
    intro c hc
    have hcs : c ∈ s := py_split_comma_chars s q hq c hc
    exact List.all_eq_true.mp hall c hcs
  rw [py_strip_nil_of_space hsp]
  simp

/-- Witness for C9: the contract applied to `" b , ,a "` (which parses to
`["b", "a"]`) and to the whitespace-only string `"  "` (which parses to the
empty list). -/
theorem parse_priority_list_contract_witness :
    parse_priority_list " b , ,a ".data = parse_priority_list_spec " b , ,a ".data
    ∧ parse_priority_list " b , ,a ".data = ["b".data, "a".data]
    ∧ "  ".data.all py_isspace = true
    ∧ parse_priority_list "  ".data = [] :=
  ⟨(parse_priority_list_contract _).1, by decide, by decide,
    (parse_priority_list_contract _).2 (by decide)⟩

end ImageToPdf
